import Mathlib

/-!
Shallow embedding of the route-optimization core of the waste-reporting
application (source: `src/types.ts`, component `ReportList`).

JavaScript numbers are modelled as real numbers (`ℝ`); the greedy loop's
`minDist = Infinity` initialisation is modelled with `WithTop ℝ`, whose `⊤`
plays the role of `Infinity`.  JS object identity on `Report` values inside
the `Set` of unvisited stops is modelled through the report `id` field; report
ids are unique in the application (they identify reports), which the theorems
record as a `Nodup` hypothesis on the mapped ids.  The static table
`CITY_COORDINATES` lives in `constants.ts` (not part of the embedded core),
so it is a parameter `cityCoordinates : String → Option LatLng` throughout.
-/

namespace WasteRoute

/-- `ReportStatus` enum from `src/types.ts`. -/
inductive ReportStatus
  | PENDING
  | VERIFIED
  | REJECTED
  | COLLECTED
deriving DecidableEq

/-- `GeoCoordinates` from `src/types.ts`: a precise latitude/longitude pair. -/
structure GeoCoordinates where
  latitude : ℝ
  longitude : ℝ

/-- The `{lat, lng}` pair produced by `getCoords`. -/
structure LatLng where
  lat : ℝ
  lng : ℝ

/-- The fields of a `Report` that the routing core reads. -/
structure Report where
  id : String
  centerCity : String
  coordinates : Option GeoCoordinates
  status : ReportStatus

/-- The component state touched by `handleOptimizeRoute`:
`reports`, `selectedReportIds`, `showRouteModal`, `optimizedRoute`. -/
structure ReportListState where
  reports : List Report
  selectedReportIds : List String
  showRouteModal : Bool
  optimizedRoute : List Report

/-- `getCoords` from `ReportList`: precise coordinates take priority, then the
city table, then the sentinel `(0, 0)`. -/
def getCoords (cityCoordinates : String → Option LatLng) (r : Report) : LatLng :=
  match r.coordinates with
  | some c => { lat := c.latitude, lng := c.longitude }
  | none =>
    match cityCoordinates r.centerCity with
    | some cc => { lat := cc.lat, lng := cc.lng }
    | none => { lat := 0, lng := 0 }

/-- `deg2rad` from `ReportList`. -/
noncomputable def deg2rad (deg : ℝ) : ℝ :=
  deg * (Real.pi / 180)

/-- Model of the platform function `Math.atan2` (two-argument arctangent),
used by the haversine computation.  Only its totality matters for the
theorems below. -/
noncomputable def atan2 (y x : ℝ) : ℝ :=
  if 0 < x then Real.arctan (y / x)
  else if x < 0 then
    (if 0 ≤ y then Real.arctan (y / x) + Real.pi else Real.arctan (y / x) - Real.pi)
  else
    (if 0 < y then Real.pi / 2 else if y < 0 then -(Real.pi / 2) else 0)

/-- `getDistanceFromLatLonInKm` from `ReportList`: haversine great-circle
distance with Earth radius 6371 km. -/
noncomputable def getDistanceFromLatLonInKm (lat1 lon1 lat2 lon2 : ℝ) : ℝ :=
  let R : ℝ := 6371
  let dLat := deg2rad (lat2 - lat1)
  let dLon := deg2rad (lon2 - lon1)
  let a :=
    Real.sin (dLat / 2) * Real.sin (dLat / 2) +
    Real.cos (deg2rad lat1) * Real.cos (deg2rad lat2) *
    (Real.sin (dLon / 2) * Real.sin (dLon / 2))
  let c := 2 * atan2 (Real.sqrt a) (Real.sqrt (1 - a))
  R * c

/-- Distance between the resolved coordinates of two reports, exactly as the
optimizer computes it (`getCoords` then `getDistanceFromLatLonInKm`). -/
noncomputable def reportDist (cityCoordinates : String → Option LatLng) (a b : Report) : ℝ :=
  let c1 := getCoords cityCoordinates a
  let c2 := getCoords cityCoordinates b
  getDistanceFromLatLonInKm c1.lat c1.lng c2.lat c2.lng

/-- The `unvisited.forEach` scan of `handleOptimizeRoute`: walk the candidate
list keeping `(nearest, minDist)`, updating on a strict `<` comparison.
The initial accumulator at the call site is `(none, ⊤)`,
mirroring `nearest = null; minDist = Infinity`. -/
noncomputable def scanNearest (d : Report → ℝ) :
    List Report → Option Report × WithTop ℝ → Option Report × WithTop ℝ
  | [], acc => acc
  | c :: cs, acc =>
    scanNearest d cs
      (if ((d c : ℝ) : WithTop ℝ) < acc.2 then (some c, ((d c : ℝ) : WithTop ℝ)) else acc)

/-- The `while (unvisited.size > 0)` loop of `handleOptimizeRoute`: scan for
the nearest unvisited report, append it to the route, delete it from the
unvisited collection (by report id), and make it the new current stop;
if the scan produced no candidate, break. -/
noncomputable def routeLoop (d : Report → Report → ℝ) (current : Report)
    (unvisited route : List Report) : List Report :=
  if unvisited.isEmpty then route
  else
    match hn : (scanNearest (d current) unvisited (none, ⊤)).1 with
    | none => route
    | some nearest =>
      routeLoop d nearest (unvisited.eraseP fun r => r.id == nearest.id) (route ++ [nearest])
termination_by unvisited.length
decreasing_by
  have key : ∀ (cs : List Report) (acc : Option Report × WithTop ℝ) (n : Report),
      (scanNearest (d current) cs acc).1 = some n → n ∈ cs ∨ acc.1 = some n := by
    intro cs
    induction cs with
    | nil =>
      intro acc n h
      exact Or.inr h
    | cons c cs ih =>
      intro acc n h
      simp only [scanNearest] at h
      rcases ih _ n h with h1 | h2
      · exact Or.inl (List.mem_cons_of_mem _ h1)
      · by_cases hc : ((d current c : ℝ) : WithTop ℝ) < acc.2
        · rw [if_pos hc] at h2
          simp only [Prod.fst, Option.some.injEq] at h2
          exact Or.inl (h2 ▸ List.mem_cons_self c cs)
        · rw [if_neg hc] at h2
          exact Or.inr h2
  rcases key unvisited (none, ⊤) nearest hn with hmem | habs
  · have h1 : ((unvisited.eraseP fun r => r.id == nearest.id)).length = unvisited.length - 1 :=
      List.length_eraseP_of_mem hmem (by simp)
    have h2 : 0 < unvisited.length := List.length_pos.mpr (by
      intro hcon
      rw [hcon] at hmem
      exact (List.not_mem_nil _) hmem)
    omega
  · exact absurd habs (by simp)

/-- Iteration counter for `routeLoop`: the same recursion, counting one for
each executed nearest-neighbor step. -/
noncomputable def routeLoopSteps (d : Report → Report → ℝ) (current : Report)
    (unvisited : List Report) : ℕ :=
  if unvisited.isEmpty then 0
  else
    match hn : (scanNearest (d current) unvisited (none, ⊤)).1 with
    | none => 0
    | some nearest =>
      routeLoopSteps d nearest (unvisited.eraseP fun r => r.id == nearest.id) + 1
termination_by unvisited.length
decreasing_by
  have key : ∀ (cs : List Report) (acc : Option Report × WithTop ℝ) (n : Report),
      (scanNearest (d current) cs acc).1 = some n → n ∈ cs ∨ acc.1 = some n := by
    intro cs
    induction cs with
    | nil =>
      intro acc n h
      exact Or.inr h
    | cons c cs ih =>
      intro acc n h
      simp only [scanNearest] at h
      rcases ih _ n h with h1 | h2
      · exact Or.inl (List.mem_cons_of_mem _ h1)
      · by_cases hc : ((d current c : ℝ) : WithTop ℝ) < acc.2
        · rw [if_pos hc] at h2
          simp only [Prod.fst, Option.some.injEq] at h2
          exact Or.inl (h2 ▸ List.mem_cons_self c cs)
        · rw [if_neg hc] at h2
          exact Or.inr h2
  rcases key unvisited (none, ⊤) nearest hn with hmem | habs
  · have h1 : ((unvisited.eraseP fun r => r.id == nearest.id)).length = unvisited.length - 1 :=
      List.length_eraseP_of_mem hmem (by simp)
    have h2 : 0 < unvisited.length := List.length_pos.mpr (by
      intro hcon
      rw [hcon] at hmem
      exact (List.not_mem_nil _) hmem)
    omega
  · exact absurd habs (by simp)

/-- The filter at the top of `handleOptimizeRoute`:
`reports.filter(r => selectedReportIds.has(r.id))`. -/
def selectedReports (s : ReportListState) : List Report :=
  s.reports.filter fun r => s.selectedReportIds.contains r.id

/-- `handleOptimizeRoute` from `ReportList`: filter the selected reports,
return unchanged state below 2 selections, otherwise run the greedy
nearest-neighbor loop from the first selected report and store the result in
`optimizedRoute`, opening the route modal. -/
noncomputable def handleOptimizeRoute (cityCoordinates : String → Option LatLng)
    (s : ReportListState) : ReportListState :=
  if (selectedReports s).length < 2 then s
  else
    match selectedReports s with
    | [] => s
    | first :: rest =>
      { s with
        optimizedRoute := routeLoop (reportDist cityCoordinates) first rest [first]
        showRouteModal := true }

/-- Number of nearest-neighbor steps `handleOptimizeRoute` executes, via
`routeLoopSteps`. -/
noncomputable def handleOptimizeRouteSteps (cityCoordinates : String → Option LatLng)
    (s : ReportListState) : ℕ :=
  if (selectedReports s).length < 2 then 0
  else
    match selectedReports s with
    | [] => 0
    | first :: rest => routeLoopSteps (reportDist cityCoordinates) first rest

/-- The route-modal itinerary of `ReportList`: each stop of the optimized
route paired with the distance to its successor (`route[idx + 1]`), or with
no leg when it is the last stop. -/
noncomputable def buildItinerary (cityCoordinates : String → Option LatLng)
    (route : List Report) : List (Report × Option ℝ) :=
  route.mapIdx fun idx node =>
    (node, (route[idx + 1]?).map fun nextNode => reportDist cityCoordinates node nextNode)

/-- City table used by the concrete witness instances: no city registered. -/
def sampleTable : String → Option LatLng := fun _ => none

/-- Concrete report for witness instances. -/
def rA : Report :=
  { id := "a", centerCity := "Mumbai", coordinates := none, status := ReportStatus.VERIFIED }

/-- Concrete report for witness instances. -/
def rB : Report :=
  { id := "b", centerCity := "Pune", coordinates := none, status := ReportStatus.VERIFIED }

/-- Concrete report for witness instances. -/
def rC : Report :=
  { id := "c", centerCity := "Delhi", coordinates := none, status := ReportStatus.VERIFIED }

/-- Concrete component state with two selected reports. -/
def sampleState : ReportListState :=
  { reports := [rA, rB, rC]
    selectedReportIds := ["a", "b"]
    showRouteModal := false
    optimizedRoute := [] }

/-- Concrete component state with a single selected report. -/
def sampleStateOne : ReportListState :=
  { reports := [rA, rB, rC]
    selectedReportIds := ["b"]
    showRouteModal := false
    optimizedRoute := [] }

/-- Characterization of the scan when the accumulator already holds a best
candidate `b` at distance `d b`: the result is the first candidate that
strictly improves on everything before it, or `b` itself when nothing
improves on `b`. -/
theorem scanNearest_go_spec (d : Report → ℝ) :
    ∀ (cs : List Report) (b : Report),
      ∃ n, scanNearest d cs (some b, ((d b : ℝ) : WithTop ℝ)) = (some n, ((d n : ℝ) : WithTop ℝ)) ∧
        ((n = b ∧ ∀ c ∈ cs, d b ≤ d c) ∨
          ∃ pre post, cs = pre ++ n :: post ∧ d n < d b ∧
            (∀ c ∈ pre, d n < d c) ∧ (∀ c ∈ post, d n ≤ d c)) := by
  intro cs
  induction cs with
  | nil =>
    intro b
    exact ⟨b, rfl, Or.inl ⟨rfl, by simp⟩⟩
  | cons c cs ih =>
    intro b
    simp only [scanNearest]
    by_cases hc : d c < d b
    · rw [if_pos (by exact_mod_cast hc)]
      obtain ⟨n, hrun, hspec⟩ := ih c
      refine ⟨n, hrun, Or.inr ?_⟩
      rcases hspec with ⟨rfl, hall⟩ | ⟨pre, post, hsplit, hlt, hpre, hpost⟩
      · exact ⟨[], cs, rfl, hc, by simp, hall⟩
      · refine ⟨c :: pre, post, by rw [hsplit]; rfl, lt_trans hlt hc, ?_, hpost⟩
        intro x hx
        rcases List.mem_cons.mp hx with rfl | hx
        · exact hlt
        · exact hpre x hx
    · rw [if_neg (by exact_mod_cast hc)]
      obtain ⟨n, hrun, hspec⟩ := ih b
      refine ⟨n, hrun, ?_⟩
      rcases hspec with ⟨rfl, hall⟩ | ⟨pre, post, hsplit, hlt, hpre, hpost⟩
      · refine Or.inl ⟨rfl, ?_⟩
        intro x hx
        rcases List.mem_cons.mp hx with rfl | hx
        · exact le_of_not_lt hc
        · exact hall x hx
      · refine Or.inr ⟨c :: pre, post, by rw [hsplit]; rfl, hlt, ?_, hpost⟩
        intro x hx
        rcases List.mem_cons.mp hx with rfl | hx
        · exact lt_of_lt_of_le hlt (le_of_not_lt hc)
        · exact hpre x hx

/-- Characterization of the scan from the initial accumulator
`(null, Infinity)` on a nonempty candidate list: it returns the first
candidate attaining the minimum distance — every earlier candidate is
strictly farther, every later candidate at least as far. -/
theorem scanNearest_split (d : Report → ℝ) (cs : List Report) (hne : cs ≠ []) :
    ∃ pre n post, cs = pre ++ n :: post ∧
      scanNearest d cs (none, ⊤) = (some n, ((d n : ℝ) : WithTop ℝ)) ∧
      (∀ c ∈ pre, d n < d c) ∧ (∀ c ∈ post, d n ≤ d c) := by
  match cs with
  | [] => exact absurd rfl hne
  | c :: cs =>
    have hstep : scanNearest d (c :: cs) (none, ⊤) =
        scanNearest d cs (some c, ((d c : ℝ) : WithTop ℝ)) := by
      simp only [scanNearest]
      rw [if_pos (by exact WithTop.coe_lt_top (d c))]
    obtain ⟨n, hrun, hspec⟩ := scanNearest_go_spec d cs c
    rcases hspec with ⟨rfl, hall⟩ | ⟨pre, post, hsplit, hlt, hpre, hpost⟩
    · exact ⟨[], n, cs, rfl, hstep.trans hrun, by simp, hall⟩
    · refine ⟨c :: pre, n, post, by rw [hsplit]; rfl, hstep.trans hrun, ?_, hpost⟩
      intro x hx
      rcases List.mem_cons.mp hx with rfl | hx
      · exact hlt
      · exact hpre x hx

/-- The selected candidate is a member of the scanned list and minimizes the
distance over it. -/
theorem scanNearest_mem_min (d : Report → ℝ) (cs : List Report) (hne : cs ≠ []) :
    ∃ n, scanNearest d cs (none, ⊤) = (some n, ((d n : ℝ) : WithTop ℝ)) ∧
      n ∈ cs ∧ ∀ c ∈ cs, d n ≤ d c := by
  obtain ⟨pre, n, post, hsplit, hrun, hpre, hpost⟩ := scanNearest_split d cs hne
  refine ⟨n, hrun, by rw [hsplit]; exact List.mem_append_right _ (List.mem_cons_self _ _), ?_⟩
  intro c hc
  rw [hsplit] at hc
  rcases List.mem_append.mp hc with hx | hx
  · exact le_of_lt (hpre c hx)
  · rcases List.mem_cons.mp hx with rfl | hx
    · exact le_refl _
    · exact hpost c hx

/-- The loop exits immediately on an empty unvisited collection. -/
theorem routeLoop_nil (d : Report → Report → ℝ) (current : Report) (route : List Report) :
    routeLoop d current [] route = route := by
  rw [routeLoop]
  rfl

/-- One iteration of the loop on a nonempty unvisited collection: the scanned
nearest candidate is appended to the route, removed from the unvisited
collection, and becomes the new current stop. -/
theorem routeLoop_cons (d : Report → Report → ℝ) (current : Report)
    (unvisited route : List Report) (hne : unvisited ≠ []) :
    ∃ n, n ∈ unvisited ∧
      scanNearest (d current) unvisited (none, ⊤) = (some n, ((d current n : ℝ) : WithTop ℝ)) ∧
      (∀ c ∈ unvisited, d current n ≤ d current c) ∧
      routeLoop d current unvisited route =
        routeLoop d n (unvisited.eraseP fun r => r.id == n.id) (route ++ [n]) := by
  obtain ⟨n, hrun, hmem, hmin⟩ := scanNearest_mem_min (d current) unvisited hne
  refine ⟨n, hmem, hrun, hmin, ?_⟩
  rw [routeLoop]
  rw [if_neg (by simp [hne])]
  split
  · next heq =>
    rw [hrun] at heq
    exact absurd heq (by simp)
  · next nearest heq =>
    rw [hrun] at heq
    simp only [Option.some.injEq] at heq
    rw [heq]

/-- The loop never breaks early: if the unvisited collection is nonempty, the
scan always yields a nearest candidate and one more iteration runs. -/
theorem routeLoopSteps_nil (d : Report → Report → ℝ) (current : Report) :
    routeLoopSteps d current [] = 0 := by
  rw [routeLoopSteps]
  rfl

/-- One iteration of the step counter, mirroring `routeLoop_cons`. -/
theorem routeLoopSteps_cons (d : Report → Report → ℝ) (current : Report)
    (unvisited : List Report) (hne : unvisited ≠ []) :
    ∃ n, n ∈ unvisited ∧
      routeLoopSteps d current unvisited =
        routeLoopSteps d n (unvisited.eraseP fun r => r.id == n.id) + 1 := by
  obtain ⟨n, hrun, hmem, hmin⟩ := scanNearest_mem_min (d current) unvisited hne
  refine ⟨n, hmem, ?_⟩
  rw [routeLoopSteps]
  rw [if_neg (by simp [hne])]
  split
  · next heq =>
    rw [hrun] at heq
    exact absurd heq (by simp)
  · next nearest heq =>
    rw [hrun] at heq
    simp only [Option.some.injEq] at heq
    rw [heq]

/-- The loop only ever appends: its result extends the accumulated route. -/
theorem routeLoop_extends (d : Report → Report → ℝ) :
    ∀ (N : ℕ) (unvisited : List Report), unvisited.length ≤ N →
      ∀ (current : Report) (route : List Report),
        ∃ t, routeLoop d current unvisited route = route ++ t := by
  intro N
  induction N with
  | zero =>
    intro u hu c r
    have hnil : u = [] := List.length_eq_zero.mp (Nat.le_zero.mp hu)
    subst hnil
    exact ⟨[], by rw [routeLoop_nil]; simp⟩
  | succ N ih =>
    intro u hu c r
    by_cases hne : u = []
    · subst hne
      exact ⟨[], by rw [routeLoop_nil]; simp⟩
    · obtain ⟨n, hmem, hrun, hmin, hstep⟩ := routeLoop_cons d c u r hne
      have hlen : (u.eraseP fun x => x.id == n.id).length ≤ N := by
        rw [List.length_eraseP_of_mem hmem (by simp)]
        have hpos : 0 < u.length := List.length_pos.mpr hne
        omega
      obtain ⟨t, ht⟩ := ih _ hlen n (r ++ [n])
      exact ⟨n :: t, by rw [hstep, ht]; simp⟩

/-- The loop result is a permutation of the accumulated route together with
the unvisited collection (report ids assumed unique). -/
theorem routeLoop_perm (d : Report → Report → ℝ) :
    ∀ (N : ℕ) (unvisited : List Report), unvisited.length ≤ N →
      ∀ (current : Report) (route : List Report),
        (unvisited.map Report.id).Nodup →
        (routeLoop d current unvisited route).Perm (route ++ unvisited) := by
  intro N
  induction N with
  | zero =>
    intro u hu c r hnd
    have hnil : u = [] := List.length_eq_zero.mp (Nat.le_zero.mp hu)
    subst hnil
    rw [routeLoop_nil]
    simp
  | succ N ih =>
    intro u hu c r hnd
    by_cases hne : u = []
    · subst hne
      rw [routeLoop_nil]
      simp
    · obtain ⟨n, hmem, hrun, hmin, hstep⟩ := routeLoop_cons d c u r hne
      rw [hstep]
      obtain ⟨a, l1, l2, hnotl1, hpa, hsplit, herase⟩ :=
        List.exists_of_eraseP (p := fun x => x.id == n.id) hmem (by simp)
      have hpab : (a.id == n.id) = true := hpa
      have haid : a.id = n.id := eq_of_beq hpab
      have hamem : a ∈ u := by rw [hsplit]; exact List.mem_append_right _ (List.mem_cons_self _ _)
      obtain rfl : a = n := List.inj_on_of_nodup_map hnd hamem hmem haid
      have hlen : (u.eraseP fun x => x.id == a.id).length ≤ N := by
        rw [List.length_eraseP_of_mem hmem (by simp)]
        have hpos : 0 < u.length := List.length_pos.mpr hne
        omega
      have hnd2 : ((u.eraseP fun x => x.id == a.id).map Report.id).Nodup := by
        have hsub : (u.eraseP fun x => x.id == a.id).Sublist u := List.eraseP_sublist u
        exact hnd.sublist (hsub.map Report.id)
      have hper := ih _ hlen a (r ++ [a]) hnd2
      rw [herase] at hper
      rw [herase]
      refine hper.trans ?_
      rw [hsplit]
      have hflat : (r ++ [a]) ++ (l1 ++ l2) = r ++ (a :: (l1 ++ l2)) := by simp
      rw [hflat]
      exact List.Perm.append_left r List.perm_middle.symm

/-- The step counter equals the size of the unvisited collection: each
iteration removes exactly one report. -/
theorem routeLoopSteps_eq_length (d : Report → Report → ℝ) :
    ∀ (N : ℕ) (unvisited : List Report), unvisited.length ≤ N →
      ∀ (current : Report), routeLoopSteps d current unvisited = unvisited.length := by
  intro N
  induction N with
  | zero =>
    intro u hu c
    have hnil : u = [] := List.length_eq_zero.mp (Nat.le_zero.mp hu)
    subst hnil
    rw [routeLoopSteps_nil]
    rfl
  | succ N ih =>
    intro u hu c
    by_cases hne : u = []
    · subst hne
      rw [routeLoopSteps_nil]
      rfl
    · obtain ⟨n, hmem, hstep⟩ := routeLoopSteps_cons d c u hne
      have herase : (u.eraseP fun x => x.id == n.id).length = u.length - 1 :=
        List.length_eraseP_of_mem hmem (by simp)
      have hpos : 0 < u.length := List.length_pos.mpr hne
      have hlen : (u.eraseP fun x => x.id == n.id).length ≤ N := by omega
      rw [hstep, ih _ hlen n, herase]
      omega

/-- C1: for every selection of at least 2 reports (report ids being unique),
the sequence produced by route optimization is a permutation of the selected
reports: same cardinality, same membership, no duplicates, no omissions. -/
theorem handleOptimizeRoute_perm_selection (tbl : String → Option LatLng) (s : ReportListState)
    (hids : (s.reports.map Report.id).Nodup)
    (h2 : 2 ≤ (selectedReports s).length) :
    ((handleOptimizeRoute tbl s).optimizedRoute).Perm (selectedReports s) := by
  have hnd : ((selectedReports s).map Report.id).Nodup := by
    have hsub : (selectedReports s).Sublist s.reports := List.filter_sublist s.reports
    exact hids.sublist (hsub.map Report.id)
  have hlt : ¬ (selectedReports s).length < 2 := Nat.not_lt.mpr h2
  rcases hsel : selectedReports s with _ | ⟨first, rest⟩
  · rw [hsel] at h2
    simp at h2
  · unfold handleOptimizeRoute
    rw [if_neg hlt, hsel]
    show (routeLoop (reportDist tbl) first rest [first]).Perm (first :: rest)
    have hnd2 : (rest.map Report.id).Nodup := by
      rw [hsel] at hnd
      exact (List.nodup_cons.mp (by simpa using hnd)).2
    exact routeLoop_perm (reportDist tbl) rest.length rest le_rfl first [first] hnd2

/-- Witness for C1 at a concrete two-report selection. -/
theorem handleOptimizeRoute_perm_selection_witness :
    ((handleOptimizeRoute sampleTable sampleState).optimizedRoute).Perm
      (selectedReports sampleState) :=
  handleOptimizeRoute_perm_selection sampleTable sampleState (by decide) (by decide)

/-- C2: at every iteration on a nonempty unvisited collection, the stop the
loop appends is an unvisited candidate minimizing the great-circle distance
from the current stop; it is removed from the unvisited collection (by id)
and becomes the new current stop. -/
theorem routeLoop_step_nearest (tbl : String → Option LatLng) (current : Report)
    (unvisited route : List Report) (hne : unvisited ≠ []) :
    ∃ n, n ∈ unvisited ∧
      (∀ c ∈ unvisited, reportDist tbl current n ≤ reportDist tbl current c) ∧
      routeLoop (reportDist tbl) current unvisited route =
        routeLoop (reportDist tbl) n (unvisited.eraseP fun r => r.id == n.id) (route ++ [n]) := by
  obtain ⟨n, hmem, hrun, hmin, hstep⟩ := routeLoop_cons (reportDist tbl) current unvisited route hne
  exact ⟨n, hmem, hmin, hstep⟩

/-- Witness for C2 at a concrete singleton unvisited collection. -/
theorem routeLoop_step_nearest_witness :
    ∃ n, n ∈ [rB] ∧
      (∀ c ∈ [rB], reportDist sampleTable rA n ≤ reportDist sampleTable rA c) ∧
      routeLoop (reportDist sampleTable) rA [rB] [rA] =
        routeLoop (reportDist sampleTable) n ([rB].eraseP fun r => r.id == n.id) ([rA] ++ [n]) :=
  routeLoop_step_nearest sampleTable rA [rB] [rA] (List.cons_ne_nil _ _)

/-- C3: coordinate resolution is total and follows the stated priority —
a precise coordinate is returned unchanged; otherwise the fallback city is
looked up in the table; otherwise the sentinel `(0, 0)` is returned. -/
theorem getCoords_total_priority (tbl : String → Option LatLng) (r : Report) :
    (∀ c, r.coordinates = some c → getCoords tbl r = { lat := c.latitude, lng := c.longitude }) ∧
    (∀ cc, r.coordinates = none → tbl r.centerCity = some cc →
      getCoords tbl r = { lat := cc.lat, lng := cc.lng }) ∧
    (r.coordinates = none → tbl r.centerCity = none →
      getCoords tbl r = { lat := 0, lng := 0 }) := by
  refine ⟨?_, ?_, ?_⟩
  · intro c hc
    simp [getCoords, hc]
  · intro cc hc ht
    simp [getCoords, hc, ht]
  · intro hc ht
    simp [getCoords, hc, ht]

/-- Witness for C3 at a report without coordinates and an unregistered city. -/
theorem getCoords_total_priority_witness :
    getCoords sampleTable rA = { lat := 0, lng := 0 } :=
  (getCoords_total_priority sampleTable rA).2.2 rfl rfl

/-- C4: for every selection of at least 2 reports (report ids being unique),
the optimized route starts with the report that appears first in the
selection's iteration order and has the same cardinality as the selection. -/
theorem handleOptimizeRoute_start_length (tbl : String → Option LatLng) (s : ReportListState)
    (hids : (s.reports.map Report.id).Nodup)
    (h2 : 2 ≤ (selectedReports s).length) :
    ((handleOptimizeRoute tbl s).optimizedRoute).head? = (selectedReports s).head? ∧
    ((handleOptimizeRoute tbl s).optimizedRoute).length = (selectedReports s).length := by
  have hnd : ((selectedReports s).map Report.id).Nodup := by
    have hsub : (selectedReports s).Sublist s.reports := List.filter_sublist s.reports
    exact hids.sublist (hsub.map Report.id)
  have hlt : ¬ (selectedReports s).length < 2 := Nat.not_lt.mpr h2
  rcases hsel : selectedReports s with _ | ⟨first, rest⟩
  · rw [hsel] at h2
    simp at h2
  · unfold handleOptimizeRoute
    rw [if_neg hlt, hsel]
    have hnd2 : (rest.map Report.id).Nodup := by
      rw [hsel] at hnd
      exact (List.nodup_cons.mp (by simpa using hnd)).2
    constructor
    · show (routeLoop (reportDist tbl) first rest [first]).head? = (first :: rest).head?
      obtain ⟨t, ht⟩ := routeLoop_extends (reportDist tbl) rest.length rest le_rfl first [first]
      rw [ht]
      rfl
    · show (routeLoop (reportDist tbl) first rest [first]).length = (first :: rest).length
      exact (routeLoop_perm (reportDist tbl) rest.length rest le_rfl first [first] hnd2).length_eq

/-- Witness for C4 at a concrete two-report selection. -/
theorem handleOptimizeRoute_start_length_witness :
    ((handleOptimizeRoute sampleTable sampleState).optimizedRoute).head? =
      (selectedReports sampleState).head? ∧
    ((handleOptimizeRoute sampleTable sampleState).optimizedRoute).length =
      (selectedReports sampleState).length :=
  handleOptimizeRoute_start_length sampleTable sampleState (by decide) (by decide)

/-- C5: the greedy scan selects the first candidate, in iteration order,
attaining the minimal distance — every candidate evaluated before the
selected one is strictly farther (the strict less-than never replaces an
earlier candidate with an equally distant later one), and every later one is
at least as far. -/
theorem scanNearest_tiebreak_first (tbl : String → Option LatLng) (current : Report)
    (unvisited : List Report) (hne : unvisited ≠ []) :
    ∃ pre n post, unvisited = pre ++ n :: post ∧
      (scanNearest (reportDist tbl current) unvisited (none, ⊤)).1 = some n ∧
      (∀ c ∈ pre, reportDist tbl current n < reportDist tbl current c) ∧
      (∀ c ∈ post, reportDist tbl current n ≤ reportDist tbl current c) := by
  obtain ⟨pre, n, post, hsplit, hrun, hpre, hpost⟩ :=
    scanNearest_split (reportDist tbl current) unvisited hne
  exact ⟨pre, n, post, hsplit, by rw [hrun], hpre, hpost⟩

/-- Witness for C5 at a concrete singleton candidate list. -/
theorem scanNearest_tiebreak_first_witness :
    ∃ pre n post, [rB] = pre ++ n :: post ∧
      (scanNearest (reportDist sampleTable rA) [rB] (none, ⊤)).1 = some n ∧
      (∀ c ∈ pre, reportDist sampleTable rA n < reportDist sampleTable rA c) ∧
      (∀ c ∈ post, reportDist sampleTable rA n ≤ reportDist sampleTable rA c) :=
  scanNearest_tiebreak_first sampleTable rA [rB] (List.cons_ne_nil _ _)

/-- C6: for every selection of at least 2 reports, the optimization loop runs
exactly `|selection| - 1` nearest-neighbor steps; each step removes exactly
one report from the unvisited collection. -/
theorem optimizeRoute_step_count (tbl : String → Option LatLng) (s : ReportListState)
    (h2 : 2 ≤ (selectedReports s).length) :
    handleOptimizeRouteSteps tbl s = (selectedReports s).length - 1 ∧
    (∀ (current : Report) (unvisited : List Report), unvisited ≠ [] →
      ∀ n, (scanNearest (reportDist tbl current) unvisited (none, ⊤)).1 = some n →
        (unvisited.eraseP fun r => r.id == n.id).length = unvisited.length - 1) := by
  constructor
  · have hlt : ¬ (selectedReports s).length < 2 := Nat.not_lt.mpr h2
    rcases hsel : selectedReports s with _ | ⟨first, rest⟩
    · rw [hsel] at h2
      simp at h2
    · unfold handleOptimizeRouteSteps
      rw [if_neg hlt, hsel]
      show routeLoopSteps (reportDist tbl) first rest = (first :: rest).length - 1
      rw [routeLoopSteps_eq_length (reportDist tbl) rest.length rest le_rfl first]
      simp
  · intro current unvisited hne n hn
    obtain ⟨m, hrun, hmem, hmin⟩ := scanNearest_mem_min (reportDist tbl current) unvisited hne
    rw [hrun] at hn
    simp only [Option.some.injEq] at hn
    subst hn
    exact List.length_eraseP_of_mem hmem (by simp)

/-- Witness for C6 at a concrete two-report selection. -/
theorem optimizeRoute_step_count_witness :
    handleOptimizeRouteSteps sampleTable sampleState = (selectedReports sampleState).length - 1 ∧
    (∀ (current : Report) (unvisited : List Report), unvisited ≠ [] →
      ∀ n, (scanNearest (reportDist sampleTable current) unvisited (none, ⊤)).1 = some n →
        (unvisited.eraseP fun r => r.id == n.id).length = unvisited.length - 1) :=
  optimizeRoute_step_count sampleTable sampleState (by decide)

/-- C7: invoking route optimization with fewer than 2 selected reports is a
no-op — the state, including the stored route and modal flag, is returned
unchanged (and, the function being total, no crash can occur). -/
theorem handleOptimizeRoute_insufficient_noop (tbl : String → Option LatLng)
    (s : ReportListState) (h : (selectedReports s).length < 2) :
    handleOptimizeRoute tbl s = s := by
  unfold handleOptimizeRoute
  rw [if_pos h]

/-- Witness for C7 at a concrete single-report selection. -/
theorem handleOptimizeRoute_insufficient_noop_witness :
    handleOptimizeRoute sampleTable sampleStateOne = sampleStateOne :=
  handleOptimizeRoute_insufficient_noop sampleTable sampleStateOne (by decide)

/-- C8: the great-circle distance function is symmetric in its two coordinate
arguments (here proved as an exact equality of the real-valued model, which
is stronger than the 1e-6 km tolerance the specification allows). -/
theorem getDistanceFromLatLonInKm_symm (lat1 lon1 lat2 lon2 : ℝ) :
    getDistanceFromLatLonInKm lat1 lon1 lat2 lon2 =
      getDistanceFromLatLonInKm lat2 lon2 lat1 lon1 := by
  have hsin : ∀ x y : ℝ,
      Real.sin (deg2rad (x - y) / 2) * Real.sin (deg2rad (x - y) / 2) =
      Real.sin (deg2rad (y - x) / 2) * Real.sin (deg2rad (y - x) / 2) := by
    intro x y
    have hneg : deg2rad (x - y) / 2 = -(deg2rad (y - x) / 2) := by
      unfold deg2rad
      ring
    rw [hneg, Real.sin_neg]
    ring
  simp only [getDistanceFromLatLonInKm]
  rw [hsin lat2 lat1, hsin lon2 lon1,
    mul_comm (Real.cos (deg2rad lat1)) (Real.cos (deg2rad lat2))]

/-- C9: in the itinerary built from a route, every stop with a successor
carries the distance between the resolved coordinates of the stop and its
successor; the last stop carries no leg; routes of length 0 or 1 produce no
legs (and the construction is total). -/
theorem buildItinerary_legs (tbl : String → Option LatLng) (route : List Report) :
    (buildItinerary tbl route).length = route.length ∧
    (∀ i a b, route[i]? = some a → route[i + 1]? = some b →
      (buildItinerary tbl route)[i]? = some (a, some (reportDist tbl a b))) ∧
    (∀ i a, route[i]? = some a → route[i + 1]? = none →
      (buildItinerary tbl route)[i]? = some (a, none)) := by
  refine ⟨?_, ?_, ?_⟩
  · simp [buildItinerary]
  · intro i a b h1 h2
    simp [buildItinerary, h1, h2]
  · intro i a h1 h2
    simp [buildItinerary, h1, h2]

/-- Witness for C9 on a one-stop route: the single stop carries no leg. -/
theorem buildItinerary_legs_witness :
    (buildItinerary sampleTable [rA])[0]? = some (rA, none) :=
  (buildItinerary_legs sampleTable [rA]).2.2 0 rA rfl rfl

/-- C10: route optimization does not modify its inputs — the reports list
(hence every report in it, with its coordinates, status and position) and the
selection are unchanged; only the route/modal view state is written. -/
theorem handleOptimizeRoute_frame (tbl : String → Option LatLng) (s : ReportListState) :
    (handleOptimizeRoute tbl s).reports = s.reports ∧
    (handleOptimizeRoute tbl s).selectedReportIds = s.selectedReportIds := by
  unfold handleOptimizeRoute
  split
  · exact ⟨rfl, rfl⟩
  · split
    · exact ⟨rfl, rfl⟩
    · exact ⟨rfl, rfl⟩

end WasteRoute
